import Mathlib

/-!
Verification development for the quasi-Monte Carlo sampling module
(`scipy/stats/_qmc.py`).

Samples of `n` points in `[0,1)^d` are embedded as functions
`s : ℕ → ℕ → ℚ` (row index, column index) together with explicit
dimensions `n d : ℕ`; a single point is `x : ℕ → ℚ`.  Machine floats are
modelled by exact rationals.  The external NumPy random generator is
modelled by oracle streams (`ℕ → ℚ` for uniform floats in `[0,1)`,
`ℕ → ℕ` for raw integer draws) together with cursors recording how many
draws have been consumed; fallible calls return `Except`.
-/

/-- Factor of the first centered-discrepancy sum: the per-row product
`∏ (1 + |s_ik − ½|/2 − |s_ik − ½|²/2)` from `discrepancy` (method `CD`). -/
def cdF1 (d : ℕ) (x : ℕ → ℚ) : ℚ :=
  ∏ t in Finset.range d, (1 + |x t - 1/2| / 2 - |x t - 1/2| ^ 2 / 2)

/-- Factor of the second centered-discrepancy sum: the per-pair product
`∏ (1 + |s_ik − ½|/2 + |s_jk − ½|/2 − |s_ik − s_jk|/2)`. -/
def cdF2 (d : ℕ) (x y : ℕ → ℚ) : ℚ :=
  ∏ t in Finset.range d, (1 + |x t - 1/2| / 2 + |y t - 1/2| / 2 - |x t - y t| / 2)

/-- Centered discrepancy body with an explicit normalising denominator,
as computed by `discrepancy(sample, iterative, method="CD")`:
`(13/12)^d − (2/den)·Σᵢ ∏ₖ … + (1/den²)·Σᵢⱼ ∏ₖ …`. -/
def cdBody (s : ℕ → ℕ → ℚ) (n d : ℕ) (den : ℚ) : ℚ :=
  (13/12 : ℚ) ^ d
    - 2 / den * (∑ i in Finset.range n, cdF1 d (s i))
    + 1 / den ^ 2 * (∑ i in Finset.range n, ∑ j in Finset.range n, cdF2 d (s i) (s j))

/-- Embeds `discrepancy(sample, iterative, method="CD")`: the sums run over the
`n` actual rows, and the denominator is `n+1` instead of `n` when
`iterative` is true. -/
def discrepancyCD (s : ℕ → ℕ → ℚ) (n d : ℕ) (iterative : Bool) : ℚ :=
  cdBody s n d ((n : ℚ) + if iterative then 1 else 0)

/-- Embeds `_update_discrepancy(x_new, sample, initial_disc)`: closed-form update
`initial_disc − (2/n')·∏(…x…) + (2/n'²)·Σᵢ ∏(…x,sᵢ…) + (1/n'²)·∏(1+|x−½|)`
with `n' = n + 1`. -/
def updateDisc (x : ℕ → ℚ) (s : ℕ → ℕ → ℚ) (n d : ℕ) (initialDisc : ℚ) : ℚ :=
  initialDisc
    - 2 / ((n : ℚ) + 1) * cdF1 d x
    + 2 / ((n : ℚ) + 1) ^ 2 * (∑ i in Finset.range n, cdF2 d x (s i))
    + 1 / ((n : ℚ) + 1) ^ 2 * ∏ t in Finset.range d, (1 + |x t - 1/2|)

/-- The sample `s` (of `n` rows) with the extra row `x` appended at index `n`. -/
def snocRow (s : ℕ → ℕ → ℚ) (n : ℕ) (x : ℕ → ℚ) : ℕ → ℕ → ℚ :=
  fun i => if i = n then x else s i

lemma cdF2_comm (d : ℕ) (x y : ℕ → ℚ) : cdF2 d x y = cdF2 d y x := by
  unfold cdF2
  refine Finset.prod_congr rfl fun t _ => ?_
  rw [abs_sub_comm (x t) (y t)]
  ring

lemma cdF2_self (d : ℕ) (x : ℕ → ℚ) :
    cdF2 d x x = ∏ t in Finset.range d, (1 + |x t - 1/2|) := by
  unfold cdF2
  refine Finset.prod_congr rfl fun t _ => ?_
  rw [sub_self, abs_zero]
  ring

lemma snocRow_lt (s : ℕ → ℕ → ℚ) (n : ℕ) (x : ℕ → ℚ) {i : ℕ} (h : i < n) :
    snocRow s n x i = s i := by
  unfold snocRow
  rw [if_neg (Nat.ne_of_lt h)]

/-- Claim C1 (amended): feeding `_update_discrepancy` the iterative
discrepancy `discrepancy(S, iterative=True)` of the old sample returns
exactly the plain centered discrepancy of the sample with the new point
appended, for every sample and every point. -/
theorem update_discrepancy_exact (n d : ℕ) (s : ℕ → ℕ → ℚ) (x : ℕ → ℚ) :
    updateDisc x s n d (discrepancyCD s n d true)
      = discrepancyCD (snocRow s n x) (n + 1) d false := by
  unfold updateDisc discrepancyCD cdBody
  have hden : ((n + 1 : ℕ) : ℚ) = (n : ℚ) + 1 := by push_cast; ring
  have h1 : (∑ i in Finset.range (n + 1), cdF1 d (snocRow s n x i))
      = (∑ i in Finset.range n, cdF1 d (s i)) + cdF1 d x := by
    rw [Finset.sum_range_succ]
    congr 1
    · exact Finset.sum_congr rfl fun i hi =>
        congrArg (cdF1 d) (snocRow_lt s n x (Finset.mem_range.mp hi))
    · unfold snocRow; rw [if_pos rfl]
  have h2 : (∑ i in Finset.range (n + 1), ∑ j in Finset.range (n + 1),
        cdF2 d (snocRow s n x i) (snocRow s n x j))
      = (∑ i in Finset.range n, ∑ j in Finset.range n, cdF2 d (s i) (s j))
        + 2 * (∑ i in Finset.range n, cdF2 d x (s i))
        + ∏ t in Finset.range d, (1 + |x t - 1/2|) := by
    have hx : snocRow s n x n = x := by unfold snocRow; rw [if_pos rfl]
    rw [Finset.sum_range_succ]
    have hinner : ∀ i, i ∈ Finset.range n →
        (∑ j in Finset.range (n + 1), cdF2 d (snocRow s n x i) (snocRow s n x j))
          = (∑ j in Finset.range n, cdF2 d (s i) (s j)) + cdF2 d x (s i) := by
      intro i hi
      have hsi := snocRow_lt s n x (Finset.mem_range.mp hi)
      rw [Finset.sum_range_succ, hsi, hx]
      congr 1
      · exact Finset.sum_congr rfl fun j hj =>
          congrArg _ (snocRow_lt s n x (Finset.mem_range.mp hj))
      · exact cdF2_comm d (s i) x
    rw [Finset.sum_congr rfl hinner, Finset.sum_add_distrib, Finset.sum_range_succ, hx]
    have hlast : (∑ j in Finset.range n, cdF2 d x (snocRow s n x j))
        = ∑ j in Finset.range n, cdF2 d x (s j) := by
      exact Finset.sum_congr rfl fun j hj =>
        congrArg _ (snocRow_lt s n x (Finset.mem_range.mp hj))
    rw [hlast, cdF2_self]
    ring
  rw [hden, h1, h2]
  simp only [if_pos, if_neg, Bool.false_eq_true, if_false, if_true]
  ring

/-- Claim C1 counterexample: with the plain (`iterative=False`) centered
discrepancy as the third argument — the claim's `CD(S)` — the update rule
does not reproduce the discrepancy of the extended sample: for the
one-point sample `S = {(1/2)}` and `x = (1/4)` the two sides differ by
`1/4`, far above the claimed `1e−10` tolerance. -/
theorem update_discrepancy_plain_fails :
    ¬ (|updateDisc (fun _ => 1/4) (fun _ _ => 1/2) 1 1
          (discrepancyCD (fun _ _ => 1/2) 1 1 false)
        - discrepancyCD (snocRow (fun _ _ => 1/2) 1 (fun _ => 1/4)) 2 1 false|
        ≤ 1 / 10 ^ 10) := by
  have hL : updateDisc (fun _ => 1/4) (fun _ _ => 1/2) 1 1
      (discrepancyCD (fun _ _ => 1/2) 1 1 false) = -19/96 := by
    norm_num [updateDisc, discrepancyCD, cdBody, cdF1, cdF2,
      Finset.sum_range_succ, Finset.prod_range_succ, abs, max_def]
  have hR : discrepancyCD (snocRow (fun _ _ => 1/2) 1 (fun _ => 1/4)) 2 1 false
      = 5/96 := by
    norm_num [discrepancyCD, cdBody, cdF1, cdF2, snocRow,
      Finset.sum_range_succ, Finset.prod_range_succ, abs, max_def]
  rw [hL, hR]
  norm_num [abs, max_def]

/-- Centered row deviation `z_ij = sample − 0.5` from `_perturb_discrepancy`. -/
def zv (s : ℕ → ℕ → ℚ) (i t : ℕ) : ℚ := s i t - 1/2

/-- Quantity `c_i1j` of `_perturb_discrepancy` (Jin et al. eq. 19):
`(1/n²)·∏ₜ ½(2 + |z_it| + |z_jt| − |z_it − z_jt|)`. -/
def cCross (s : ℕ → ℕ → ℚ) (n d i j : ℕ) : ℚ :=
  1 / (n : ℚ) ^ 2 *
    ∏ t in Finset.range d, (1/2 * (2 + |zv s i t| + |zv s j t| - |zv s i t - zv s j t|))

/-- Quantity `g_i` of `_perturb_discrepancy`: `∏ₜ (1 + |z_it|)`. -/
def gP (s : ℕ → ℕ → ℚ) (d i : ℕ) : ℚ := ∏ t in Finset.range d, (1 + |zv s i t|)

/-- Quantity `h_i` of `_perturb_discrepancy`: `∏ₜ (1 + |z_it|/2 − z_it²/2)`. -/
def hP (s : ℕ → ℕ → ℚ) (d i : ℕ) : ℚ :=
  ∏ t in Finset.range d, (1 + |zv s i t| / 2 - (zv s i t) ^ 2 / 2)

/-- Quantity `c_ii` of `_perturb_discrepancy` (eq. 20): `(1/n²)·g_i − (2/n)·h_i`. -/
def cDiag (s : ℕ → ℕ → ℚ) (n d i : ℕ) : ℚ :=
  1 / (n : ℚ) ^ 2 * gP s d i - 2 / (n : ℚ) * hP s d i

/-- Column-`k` kernel used in the `gamma` ratio of `_perturb_discrepancy`:
`2 + |z_ik| + |z_jk| − |z_ik − z_jk|` (the numerator uses `i = i2`, the
denominator the same expression with `i = i1`). -/
def numK (s : ℕ → ℕ → ℚ) (i j k : ℕ) : ℚ :=
  2 + |zv s i k| + |zv s j k| - |zv s i k - zv s j k|

/-- Embeds `_perturb_discrepancy(sample, i1, i2, k, disc)`: the closed-form centered
discrepancy of the design with cells `(i1,k)` and `(i2,k)` exchanged, built
from `disc` plus the diagonal corrections (eq. 25/26) and twice the masked
off-diagonal sum (eq. 22–24). -/
def perturbDisc (s : ℕ → ℕ → ℚ) (n d i1 i2 k : ℕ) (disc : ℚ) : ℚ :=
  disc
    + (gP s d i1 * ((1 + |zv s i2 k|) / (1 + |zv s i1 k|)) / (n : ℚ) ^ 2
        - 2 * ((1 + |zv s i2 k|) / (1 + |zv s i1 k|))
            * ((2 - |zv s i2 k|) / (2 - |zv s i1 k|)) * hP s d i1 / (n : ℚ))
    - cDiag s n d i1
    + (gP s d i2 / ((n : ℚ) ^ 2 * ((1 + |zv s i2 k|) / (1 + |zv s i1 k|)))
        - 2 * hP s d i2 / ((n : ℚ) * ((1 + |zv s i2 k|) / (1 + |zv s i1 k|))
            * ((2 - |zv s i2 k|) / (2 - |zv s i1 k|))))
    - cDiag s n d i2
    + 2 * ∑ j in (Finset.range n).filter (fun j => j ≠ i1 ∧ j ≠ i2),
        ((numK s i2 j k / numK s i1 j k) * cCross s n d i1 j - cCross s n d i1 j
          + cCross s n d i2 j / (numK s i2 j k / numK s i1 j k) - cCross s n d i2 j)

lemma numK_pos (s : ℕ → ℕ → ℚ) (i j k : ℕ) : 0 < numK s i j k := by
  unfold numK
  have h : |zv s i k - zv s j k| ≤ |zv s i k| + |zv s j k| := by
    calc |zv s i k - zv s j k| = |zv s i k + -(zv s j k)| := by rw [sub_eq_add_neg]
    _ ≤ |zv s i k| + |-(zv s j k)| := abs_add _ _
    _ = |zv s i k| + |zv s j k| := by rw [abs_neg]
  linarith

lemma perturb_term_swap (u v p q : ℚ) (hp : p ≠ 0) (hq : q ≠ 0) :
    (p / q) * u - u + v / (p / q) - v = (q / p) * v - v + u / (q / p) - u := by
  field_simp
  ring

/-- Claim C9: for a sample with entries in `[0,1)` and in-range indices,
`_perturb_discrepancy` is invariant under exchanging the two row indices. -/
theorem perturb_discrepancy_swap_rows (s : ℕ → ℕ → ℚ) (n d i1 i2 k : ℕ)
    (disc : ℚ) (hi1 : i1 < n) (hi2 : i2 < n) (hk : k < d)
    (hrange : ∀ i j, i < n → j < d → 0 ≤ s i j ∧ s i j < 1) :
    perturbDisc s n d i1 i2 k disc = perturbDisc s n d i2 i1 k disc := by
  have hn : (0 : ℚ) < (n : ℚ) := by
    exact_mod_cast Nat.pos_of_ne_zero (by omega)
  have hz1 : |zv s i1 k| ≤ 1/2 := by
    have h := hrange i1 k hi1 hk
    unfold zv
    rw [abs_le]
    constructor <;> linarith [h.1, h.2]
  have hz2 : |zv s i2 k| ≤ 1/2 := by
    have h := hrange i2 k hi2 hk
    unfold zv
    rw [abs_le]
    constructor <;> linarith [h.1, h.2]
  have ha1 : (1 + |zv s i1 k|) ≠ 0 := by positivity
  have ha2 : (1 + |zv s i2 k|) ≠ 0 := by positivity
  have hb1 : (2 - |zv s i1 k|) ≠ 0 := by
    have := abs_nonneg (zv s i1 k); intro h; linarith
  have hb2 : (2 - |zv s i2 k|) ≠ 0 := by
    have := abs_nonneg (zv s i2 k); intro h; linarith
  unfold perturbDisc
  have hsum : (∑ j in (Finset.range n).filter (fun j => j ≠ i1 ∧ j ≠ i2),
        ((numK s i2 j k / numK s i1 j k) * cCross s n d i1 j - cCross s n d i1 j
          + cCross s n d i2 j / (numK s i2 j k / numK s i1 j k) - cCross s n d i2 j))
      = (∑ j in (Finset.range n).filter (fun j => j ≠ i2 ∧ j ≠ i1),
        ((numK s i1 j k / numK s i2 j k) * cCross s n d i2 j - cCross s n d i2 j
          + cCross s n d i1 j / (numK s i1 j k / numK s i2 j k) - cCross s n d i1 j)) := by
    have hfil : (Finset.range n).filter (fun j => j ≠ i1 ∧ j ≠ i2)
        = (Finset.range n).filter (fun j => j ≠ i2 ∧ j ≠ i1) := by
      refine Finset.filter_congr fun j _ => ?_
      constructor <;> exact fun h => ⟨h.2, h.1⟩
    rw [hfil]
    refine Finset.sum_congr rfl fun j _ => ?_
    exact perturb_term_swap (cCross s n d i1 j) (cCross s n d i2 j)
      (numK s i2 j k) (numK s i1 j k) (ne_of_gt (numK_pos s i2 j k))
      (ne_of_gt (numK_pos s i1 j k))
  rw [hsum]
  have hgoal : (gP s d i1 * ((1 + |zv s i2 k|) / (1 + |zv s i1 k|)) / (n : ℚ) ^ 2
        - 2 * ((1 + |zv s i2 k|) / (1 + |zv s i1 k|))
            * ((2 - |zv s i2 k|) / (2 - |zv s i1 k|)) * hP s d i1 / (n : ℚ))
      + (gP s d i2 / ((n : ℚ) ^ 2 * ((1 + |zv s i2 k|) / (1 + |zv s i1 k|)))
        - 2 * hP s d i2 / ((n : ℚ) * ((1 + |zv s i2 k|) / (1 + |zv s i1 k|))
            * ((2 - |zv s i2 k|) / (2 - |zv s i1 k|))))
      = (gP s d i2 * ((1 + |zv s i1 k|) / (1 + |zv s i2 k|)) / (n : ℚ) ^ 2
        - 2 * ((1 + |zv s i1 k|) / (1 + |zv s i2 k|))
            * ((2 - |zv s i1 k|) / (2 - |zv s i2 k|)) * hP s d i2 / (n : ℚ))
      + (gP s d i1 / ((n : ℚ) ^ 2 * ((1 + |zv s i1 k|) / (1 + |zv s i2 k|)))
        - 2 * hP s d i1 / ((n : ℚ) * ((1 + |zv s i1 k|) / (1 + |zv s i2 k|))
            * ((2 - |zv s i1 k|) / (2 - |zv s i2 k|)))) := by
    field_simp
    ring
  linarith [hgoal]

/-- Claim C9 witness: concrete two-point one-column sample `((1/4),(3/4))`,
rows 0 and 1 swapped in column 0. -/
theorem perturb_discrepancy_swap_rows_witness :
    perturbDisc (fun i _ => if i = 0 then 1/4 else 3/4) 2 1 0 1 0 (37/100)
      = perturbDisc (fun i _ => if i = 0 then 1/4 else 3/4) 2 1 1 0 0 (37/100) := by
  refine perturb_discrepancy_swap_rows _ 2 1 0 1 0 (37/100) (by norm_num)
    (by norm_num) (by norm_num) ?_
  intro i j hi _
  interval_cases i <;> norm_num

/-- The in-place exchange `doe[r1,c] <-> doe[r2,c]` performed by
`_perturb_best_doe` when a swap is committed. -/
def swapCells (doe : ℕ → ℕ → ℚ) (r1 r2 c : ℕ) : ℕ → ℕ → ℚ :=
  fun i j =>
    if i = r1 ∧ j = c then doe r2 c
    else if i = r2 ∧ j = c then doe r1 c
    else doe i j

/-- Mutable state tracked by `OptimalDesign.random` during optimization:
the current best design and its centered discrepancy. -/
structure OptState where
  doe : ℕ → ℕ → ℚ
  disc : ℚ

/-- One evaluation of the objective `_perturb_best_doe` at the rounded
probe `(col, row_1, row_2)`: compute the candidate discrepancy with
`_perturb_discrepancy` and commit the swap only if it is strictly smaller
than the current best. -/
def odStep (n d : ℕ) (st : OptState) (probe : ℕ × ℕ × ℕ) : OptState :=
  let cand := perturbDisc st.doe n d probe.2.1 probe.2.2 probe.1 st.disc
  if cand < st.disc then ⟨swapCells st.doe probe.2.1 probe.2.2 probe.1, cand⟩ else st

/-- The whole optimization run: the injected optimizer evaluates the
objective at some finite sequence of probes; the engine state folds
through `odStep`. -/
def odOptimize (n d : ℕ) (st : OptState) (probes : List (ℕ × ℕ × ℕ)) : OptState :=
  probes.foldl (odStep n d) st

lemma odStep_disc_le (n d : ℕ) (st : OptState) (probe : ℕ × ℕ × ℕ) :
    (odStep n d st probe).disc ≤ st.disc := by
  unfold odStep
  by_cases h : perturbDisc st.doe n d probe.2.1 probe.2.2 probe.1 st.disc < st.disc
  · rw [if_pos h]
    exact le_of_lt h
  · rw [if_neg h]

lemma odOptimize_disc_le (n d : ℕ) (st : OptState) (probes : List (ℕ × ℕ × ℕ)) :
    (odOptimize n d st probes).disc ≤ st.disc := by
  induction probes generalizing st with
  | nil => exact le_refl _
  | cons p ps ih =>
      exact le_trans (ih (odStep n d st p)) (odStep_disc_le n d st p)

/-- Claim C8: starting from any initial design with its centered
discrepancy, the tracked `best_disc` never increases along any sequence of
objective evaluations, so the final `best_disc` is at most the centered
discrepancy of the initial design. -/
theorem optimal_design_best_disc_le (n d : ℕ) (doe : ℕ → ℕ → ℚ)
    (probes : List (ℕ × ℕ × ℕ)) (hd : 1 ≤ d) :
    (odOptimize n d ⟨doe, discrepancyCD doe n d false⟩ probes).disc
      ≤ discrepancyCD doe n d false := by
  exact odOptimize_disc_le n d _ probes

/-- Claim C8 witness: a concrete run in dimension 1 on a two-point design
with one probe. -/
theorem optimal_design_best_disc_le_witness :
    (odOptimize 2 1 ⟨fun i _ => if i = 0 then 1/4 else 3/4,
        discrepancyCD (fun i _ => if i = 0 then 1/4 else 3/4) 2 1 false⟩
        [(0, 0, 1)]).disc
      ≤ discrepancyCD (fun i _ => if i = 0 then 1/4 else 3/4) 2 1 false :=
  optimal_design_best_disc_le 2 1 _ [(0, 0, 1)] (by norm_num)

/-- Index of the lowest unset bit of `i` (0-indexed), the Gray-code column
selector `c` of the Antonov–Saleev recurrence. -/
def lowZero (i : ℕ) : ℕ :=
  if i % 2 = 0 then 0 else lowZero (i / 2) + 1
termination_by i
decreasing_by exact Nat.div_lt_self (by omega) (by omega)

/-- State of a `Sobol` engine: dimension, direction-number matrix `_sv`
(kept abstract, filled by the external v-matrix setup and `_cscramble`), the
scramble XOR-mask `_shift`, the running accumulator `_quasi`, and the
cursor `num_generated`. -/
structure SobolState where
  d : ℕ
  sv : ℕ → ℕ → ℕ
  shift : ℕ → ℕ
  quasi : ℕ → ℕ
  numGenerated : ℕ

/-- A freshly constructed `Sobol` engine: `_quasi = _shift`, cursor 0. -/
def sobolInit (d : ℕ) (sv : ℕ → ℕ → ℕ) (shift : ℕ → ℕ) : SobolState :=
  ⟨d, sv, shift, shift, 0⟩

/-- Modelled from the spec: the Cython `_draw` kernel is not under `src/`;
per §4.D drawing is the Gray-code recurrence, for each index `i` XORing
every dimension of `quasi` with column `lowZero i` of `_sv` and emitting
the updated `quasi`.  Returns the emitted raw points and the final
`quasi`. -/
def drawAux (sv : ℕ → ℕ → ℕ) : ℕ → ℕ → (ℕ → ℕ) → List (ℕ → ℕ) × (ℕ → ℕ)
  | 0, _, q => ([], q)
  | n + 1, i, q =>
      ((fun j => q j ^^^ sv j (lowZero i))
          :: (drawAux sv n (i + 1) (fun j => q j ^^^ sv j (lowZero i))).1,
        (drawAux sv n (i + 1) (fun j => q j ^^^ sv j (lowZero i))).2)

/-- Modelled from the spec: the Cython `_fast_forward` kernel is not under
`src/`; per §4.D it applies the same Gray-code XOR updates without
emitting points. -/
def ffAux (sv : ℕ → ℕ → ℕ) : ℕ → ℕ → (ℕ → ℕ) → (ℕ → ℕ)
  | 0, _, q => q
  | n + 1, i, q => ffAux sv n (i + 1) (fun j => q j ^^^ sv j (lowZero i))

/-- A raw integer point divided by `2^MAXBIT` (`MAXBIT = 30`). -/
def scalePoint (q : ℕ → ℕ) : ℕ → ℚ := fun j => (q j : ℚ) / 2 ^ 30

/-- Embeds `Sobol.random(n)`: at cursor 0 the cached first point (`_shift/2^30`)
is spliced in front of `n−1` drawn points and the result truncated to `n`
rows; at a positive cursor `n` points are drawn starting at Gray-code
index `num_generated − 1`. -/
def sobolRandom (n : ℕ) (s : SobolState) : List (ℕ → ℚ) × SobolState :=
  if s.numGenerated = 0 then
    if n = 1 then
      ([scalePoint s.shift], { s with numGenerated := 1 })
    else
      ((scalePoint s.shift :: (drawAux s.sv (n - 1) 0 s.quasi).1.map scalePoint).take n,
        { s with quasi := (drawAux s.sv (n - 1) 0 s.quasi).2, numGenerated := n })
  else
    ((drawAux s.sv n (s.numGenerated - 1) s.quasi).1.map scalePoint,
      { s with quasi := (drawAux s.sv n (s.numGenerated - 1) s.quasi).2,
               numGenerated := s.numGenerated + n })

/-- Embeds `Sobol.fast_forward(n)`: the same index bookkeeping as `random`
(`n−1` updates from index 0 at cursor 0, else `n` updates from
`num_generated − 1`), with no emission. -/
def sobolFastForward (n : ℕ) (s : SobolState) : SobolState :=
  if s.numGenerated = 0 then
    { s with quasi := ffAux s.sv (n - 1) 0 s.quasi, numGenerated := n }
  else
    { s with quasi := ffAux s.sv n (s.numGenerated - 1) s.quasi,
             numGenerated := s.numGenerated + n }

/-- Embeds `Sobol.reset()`: `_quasi := _shift`, cursor 0; the scramble is kept. -/
def sobolReset (s : SobolState) : SobolState :=
  { s with quasi := s.shift, numGenerated := 0 }

/-- Embeds `Sobol.random_base2(m)`: draw `2^m` points, but fail when
`num_generated + 2^m` does not pass the `total_n & (total_n - 1) == 0`
power-of-two test. -/
def sobolRandomBase2 (m : ℕ) (s : SobolState) :
    Except String (List (ℕ → ℚ) × SobolState) :=
  if (s.numGenerated + 2 ^ m) &&& (s.numGenerated + 2 ^ m - 1) = 0 then
    Except.ok (sobolRandom (2 ^ m) s)
  else
    Except.error "The balance properties of Sobol points require n to be a power of 2."

/-- Returns `true` exactly on the `raise` branch of a fallible call. -/
def exceptIsErr {α : Type} (e : Except String α) : Bool :=
  match e with
  | .error _ => true
  | .ok _ => false

/-- Number of points returned by a successful `random_base2`, 0 on error. -/
def sobolBase2Len (e : Except String (List (ℕ → ℚ) × SobolState)) : ℕ :=
  match e with
  | .ok r => r.1.length
  | .error _ => 0

lemma drawAux_len (sv : ℕ → ℕ → ℕ) : ∀ (n i : ℕ) (q : ℕ → ℕ),
    (drawAux sv n i q).1.length = n := by
  intro n
  induction n with
  | zero => intro i q; rfl
  | succ n ih => intro i q; simp [drawAux, ih]

lemma ffAux_eq_drawAux (sv : ℕ → ℕ → ℕ) : ∀ (n i : ℕ) (q : ℕ → ℕ),
    ffAux sv n i q = (drawAux sv n i q).2 := by
  intro n
  induction n with
  | zero => intro i q; rfl
  | succ n ih => intro i q; simp [ffAux, drawAux, ih]

lemma drawAux_add (sv : ℕ → ℕ → ℕ) (a b : ℕ) : ∀ (i : ℕ) (q : ℕ → ℕ),
    (drawAux sv (a + b) i q).1
      = (drawAux sv a i q).1 ++ (drawAux sv b (i + a) ((drawAux sv a i q).2)).1 := by
  induction a with
  | zero =>
      intro i q
      rw [Nat.zero_add]
      rfl
  | succ a ih =>
      intro i q
      have hn : a + 1 + b = (a + b) + 1 := by omega
      rw [hn]
      simp only [drawAux, List.cons_append]
      rw [ih (i + 1) (fun j => q j ^^^ sv j (lowZero i))]
      have hi : i + 1 + a = i + (a + 1) := by omega
      rw [hi]

/-- Claim C2 (amended, Sobol): on a freshly constructed Sobol engine,
`fast_forward(n)` followed by `random(m)` produces exactly the points of
`random(n+m)` with the first `n` dropped, for all direction numbers,
shifts and all `n, m ≥ 0`. -/
theorem sobol_fast_forward_then_random (d : ℕ) (sv : ℕ → ℕ → ℕ)
    (shift : ℕ → ℕ) (n m : ℕ) :
    (sobolRandom m (sobolFastForward n (sobolInit d sv shift))).1
      = ((sobolRandom (n + m) (sobolInit d sv shift)).1).drop n := by
  rcases Nat.eq_zero_or_pos n with hn0 | hn1
  · subst hn0
    have hff : sobolFastForward 0 (sobolInit d sv shift) = sobolInit d sv shift := rfl
    rw [hff, Nat.zero_add, List.drop_zero]
  · obtain ⟨p, rfl⟩ : ∃ p, n = p + 1 := ⟨n - 1, by omega⟩
    have hff : sobolFastForward (p + 1) (sobolInit d sv shift)
        = ⟨d, sv, shift, ffAux sv p 0 shift, p + 1⟩ := by
      unfold sobolFastForward sobolInit
      rw [if_pos rfl]
      rfl
    have hL : (sobolRandom m (sobolFastForward (p + 1) (sobolInit d sv shift))).1
        = (drawAux sv m p (ffAux sv p 0 shift)).1.map scalePoint := by
      rw [hff]
      unfold sobolRandom
      rw [if_neg (by omega : ¬ p + 1 = 0)]
      rfl
    rw [hL]
    by_cases hnm1 : p + 1 + m = 1
    · have hp0 : p = 0 := by omega
      have hm0 : m = 0 := by omega
      subst hp0; subst hm0
      rfl
    · have hR : (sobolRandom (p + 1 + m) (sobolInit d sv shift)).1
          = scalePoint shift :: (drawAux sv (p + 1 + m - 1) 0 shift).1.map scalePoint := by
        unfold sobolRandom sobolInit
        rw [if_pos rfl, if_neg hnm1]
        refine List.take_of_length_le ?_
        simp [drawAux_len]
        omega
      rw [hR]
      have hsplit : p + 1 + m - 1 = p + m := by omega
      rw [hsplit, drawAux_add sv p m 0 shift, Nat.zero_add, List.map_append,
        List.drop_succ_cons, ffAux_eq_drawAux]
      have hlen : ((drawAux sv p 0 shift).1.map scalePoint).length = p := by
        simp [drawAux_len]
      exact (List.drop_left' hlen).symm

lemma testBit_of_between {m k : ℕ} (h1 : 2 ^ k ≤ m) (h2 : m < 2 ^ (k + 1)) :
    Nat.testBit m k = true := by
  have hdiv : m / 2 ^ k = 1 := by
    refine Nat.div_eq_of_lt_le (by omega) ?_
    rw [pow_succ] at h2
    omega
  rw [Nat.testBit_to_div_mod, hdiv]
  rfl

lemma land_pred_eq_zero_iff {t : ℕ} (ht : t ≠ 0) :
    t &&& (t - 1) = 0 ↔ ∃ k, t = 2 ^ k := by
  constructor
  · intro h
    refine ⟨Nat.log2 t, ?_⟩
    by_contra hne
    have h1 : 2 ^ Nat.log2 t ≤ t := Nat.log2_self_le ht
    have h2 : t < 2 ^ (Nat.log2 t + 1) := Nat.lt_log2_self
    have hgt : 2 ^ Nat.log2 t < t := lt_of_le_of_ne h1 (fun e => hne e.symm)
    have hb1 : Nat.testBit t (Nat.log2 t) = true := testBit_of_between h1 h2
    have hb2 : Nat.testBit (t - 1) (Nat.log2 t) = true :=
      testBit_of_between (by omega) (by omega)
    have hz := congrArg (fun x => Nat.testBit x (Nat.log2 t)) h
    simp only [Nat.testBit_and, hb1, hb2, Bool.and_self, Nat.zero_testBit] at hz
    exact Bool.noConfusion hz
  · rintro ⟨k, rfl⟩
    apply Nat.eq_of_testBit_eq
    intro i
    rw [Nat.testBit_and, Nat.testBit_two_pow, Nat.testBit_two_pow_sub_one,
      Nat.zero_testBit]
    by_cases h : k = i
    · subst h; simp
    · simp [h]

lemma sobolRandom_length (n : ℕ) (s : SobolState) :
    (sobolRandom n s).1.length = n := by
  unfold sobolRandom
  by_cases h0 : s.numGenerated = 0
  · rw [if_pos h0]
    by_cases h1 : n = 1
    · rw [if_pos h1, h1]
      rfl
    · rw [if_neg h1]
      simp [List.length_take, drawAux_len]
      omega
  · rw [if_neg h0]
    simp [drawAux_len]

/-- Claim C7: `random_base2(m)` fails exactly when `num_generated + 2^m`
is not a power of two, and otherwise returns `2^m` points — for every
engine state and every `m ≥ 0`. -/
theorem sobol_random_base2_balance (d : ℕ) (sv : ℕ → ℕ → ℕ)
    (sh q : ℕ → ℕ) (g m : ℕ) :
    (exceptIsErr (sobolRandomBase2 m ⟨d, sv, sh, q, g⟩) = true
        ↔ ¬ ∃ k, g + 2 ^ m = 2 ^ k)
      ∧ sobolBase2Len (sobolRandomBase2 m ⟨d, sv, sh, q, g⟩)
          = if (g + 2 ^ m) &&& (g + 2 ^ m - 1) = 0 then 2 ^ m else 0 := by
  have hne : g + 2 ^ m ≠ 0 := by
    have := Nat.pos_pow_of_pos m (by omega : 0 < 2)
    omega
  unfold sobolRandomBase2
  by_cases hc : (g + 2 ^ m) &&& (g + 2 ^ m - 1) = 0
  · rw [if_pos hc]
    refine ⟨?_, ?_⟩
    · simp only [exceptIsErr]
      constructor
      · intro h; exact absurd h (by simp)
      · intro h; exact absurd ((land_pred_eq_zero_iff hne).mp hc) h
    · simp only [sobolBase2Len]
      rw [if_pos hc]
      exact sobolRandom_length (2 ^ m) _
  · rw [if_neg hc]
    refine ⟨?_, ?_⟩
    · simp only [exceptIsErr]
      constructor
      · intro _
        intro hex
        exact hc ((land_pred_eq_zero_iff hne).mpr hex)
      · intro _; trivial
    · simp only [sobolBase2Len]
      rw [if_neg hc]

/-- Claim C6 (amended, Sobol): both `random(n)` and `fast_forward(n)`
advance the Sobol cursor `num_generated` by exactly `n`, from any state. -/
theorem sobol_cursor_advances (n : ℕ) (s : SobolState) :
    (sobolRandom n s).2.numGenerated = s.numGenerated + n
      ∧ (sobolFastForward n s).numGenerated = s.numGenerated + n := by
  refine ⟨?_, ?_⟩
  · unfold sobolRandom
    by_cases h0 : s.numGenerated = 0
    · rw [if_pos h0, h0]
      by_cases h1 : n = 1
      · rw [if_pos h1, h1]
      · rw [if_neg h1]
        show n = 0 + n
        omega
    · rw [if_neg h0]
  · unfold sobolFastForward
    by_cases h0 : s.numGenerated = 0
    · rw [if_pos h0, h0]
      show n = 0 + n
      omega
    · rw [if_neg h0]

/-- State of a `LatinHypercube` engine: the cursor `num_generated` plus the
positions of its NumPy generator inside the oracle streams of uniform
floats (`fpos`) and raw integer draws (`ipos`). -/
structure LhsState where
  numGenerated : ℕ
  fpos : ℕ
  ipos : ℕ

/-- Embeds `LatinHypercube.random(n)` with float stream `fl` and integer stream
`it`: first the per-cell offsets `r` are drawn row-major (consuming `n·d`
floats unless `centered`), then `q = rg_integers(low=1, high=n)` — which
raises `low >= high` when `n ≤ 1`, after the floats were already
consumed — and the sample `(q − r)/n` is returned.  A raw integer draw `x`
realises the uniform value `1 + x % (n−1)` of `[1, n)`. -/
def lhsRandom (d : ℕ) (centered : Bool) (fl : ℕ → ℚ) (it : ℕ → ℕ) (n : ℕ)
    (s : LhsState) : Except String (ℕ → ℕ → ℚ) × LhsState :=
  if n ≤ 1 then
    (Except.error "low >= high",
      ⟨s.numGenerated, if centered then s.fpos else s.fpos + n * d, s.ipos⟩)
  else
    (Except.ok (fun i k =>
        (((1 + it (s.ipos + i * d + k) % (n - 1) : ℕ) : ℚ)
            - (if centered then (1 : ℚ) / 2 else fl (s.fpos + i * d + k))) / (n : ℚ)),
      ⟨s.numGenerated + n, (if centered then s.fpos else s.fpos + n * d),
        s.ipos + n * d⟩)

/-- Embeds `QMCEngine.fast_forward(n)`, inherited by `LatinHypercube`: only the
cursor advances; no draw is consumed from the generator. -/
def lhsFastForward (n : ℕ) (s : LhsState) : LhsState :=
  ⟨s.numGenerated + n, s.fpos, s.ipos⟩

/-- Entry `(i,k)` of a successful sample, 0 on the error branch. -/
def okEntry (e : Except String (ℕ → ℕ → ℚ)) (i k : ℕ) : ℚ :=
  match e with
  | .ok mat => mat i k
  | .error _ => 0

/-- Claim C2 counterexample: for a `LatinHypercube` engine (`d = 1`,
zero float and integer streams), `fast_forward(2)` then `random(2)` gives
a first point `1/2`, while the last two points of `random(4)` on a fresh
identical engine are `1/4`: `fast_forward` does not consume generator
draws and the denominator of `(q − r)/n` differs, so the claimed identity
fails. -/
theorem lhs_fast_forward_random_differs :
    okEntry (lhsRandom 1 false (fun _ => 0) (fun _ => 0) 2
        (lhsFastForward 2 ⟨0, 0, 0⟩)).1 0 0
      ≠ okEntry (lhsRandom 1 false (fun _ => 0) (fun _ => 0) 4 ⟨0, 0, 0⟩).1 2 0 := by
  norm_num [lhsRandom, lhsFastForward, okEntry]

/-- Claim C4: the per-column integer draw of `LatinHypercube.random` is
`rg_integers(low=1, high=n)`, whose support is `{1, …, n−1}` — the value
`n` is never drawn.  For every stream, `random(1)` (the empty range
`[1,1)`) raises, and every cell of `random(2)` equals `(1 − r)/2` with `q`
pinned to 1, so no point ever falls in the top stratum `[1/2, 1)` claimed
by the `{1, …, n}` semantics. -/
theorem lhs_integer_draw_missing_endpoint (fl : ℕ → ℚ) (it : ℕ → ℕ) :
    exceptIsErr (lhsRandom 1 false fl it 1 ⟨0, 0, 0⟩).1 = true
      ∧ ∀ i : ℕ, okEntry (lhsRandom 1 false fl it 2 ⟨0, 0, 0⟩).1 i 0
          = (1 - fl i) / 2 := by
  refine ⟨rfl, fun i => ?_⟩
  simp [lhsRandom, okEntry, Nat.mod_one]

/-- Claim C10 (amended): `LatinHypercube.random(1)` raises for every
dimension, stream and state (the integer draw requests the empty range
`[1,1)`), and the cursor `num_generated` is left unchanged — but unless
`centered` is set the generator has already consumed `n·d = d` uniform
floats when the error is raised. -/
theorem lhs_random_one_raises (d : ℕ) (centered : Bool) (fl : ℕ → ℚ)
    (it : ℕ → ℕ) (s : LhsState) :
    (lhsRandom d centered fl it 1 s).1 = Except.error "low >= high"
      ∧ (lhsRandom d centered fl it 1 s).2.numGenerated = s.numGenerated
      ∧ (lhsRandom d centered fl it 1 s).2.fpos
          = (if centered then s.fpos else s.fpos + d)
      ∧ (lhsRandom d centered fl it 1 s).2.ipos = s.ipos := by
  refine ⟨rfl, rfl, ?_, rfl⟩
  cases centered <;> simp [lhsRandom]

/-- Claim C10 counterexample: with `centered=False` the failed `random(1)`
does change the engine's observable state: the float cursor moved from 0
to 1, and a subsequent `random(2)` returns a first point (`1/3`) different
from the first point (`1/4`) of `random(2)` on a fresh identical engine. -/
theorem lhs_failed_random_mutates_rng :
    (lhsRandom 1 false (fun i => 1 / ((i : ℚ) + 2)) (fun _ => 0) 1 ⟨0, 0, 0⟩).2.fpos ≠ 0
      ∧ okEntry (lhsRandom 1 false (fun i => 1 / ((i : ℚ) + 2)) (fun _ => 0) 2
            (lhsRandom 1 false (fun i => 1 / ((i : ℚ) + 2)) (fun _ => 0) 1
              ⟨0, 0, 0⟩).2).1 0 0
        ≠ okEntry (lhsRandom 1 false (fun i => 1 / ((i : ℚ) + 2)) (fun _ => 0) 2
            ⟨0, 0, 0⟩).1 0 0 := by
  refine ⟨by norm_num [lhsRandom], ?_⟩
  norm_num [lhsRandom, okEntry]

/-- Python float modulo `x % b` (sign of the divisor, here `b > 0`). -/
def qfmod (x b : ℚ) : ℚ := x - b * (⌊x / b⌋ : ℤ)

/-- Modelling one point of the scrambled `van_der_corput` loop: state
`(k, acc, b2r, quot)` across `K` digit iterations.  Each iteration takes
`remainder = quot % base`, truncates it to an index (`astype(int)`), sends
it through the permutation `perms k` drawn at this iteration, accumulates
`perm[remainder]·b2r`, and updates `quot := (quot − perm[remainder])/base`
— the code subtracts the permuted remainder. -/
def vdcPoint (base : ℕ) (perms : ℕ → ℕ → ℕ) : ℕ → ℕ → ℚ → ℚ → ℚ → ℚ
  | 0, _, acc, _, _ => acc
  | K + 1, k, acc, b2r, quot =>
      vdcPoint base perms K (k + 1)
        (acc + ((perms k (Int.toNat ⌊qfmod quot (base : ℚ)⌋) : ℕ) : ℚ) * b2r)
        (b2r / (base : ℚ))
        ((quot - ((perms k (Int.toNat ⌊qfmod quot (base : ℚ)⌋) : ℕ) : ℚ)) / (base : ℚ))

/-- The vectorised digit loop of `van_der_corput(n, base, start_index,
scramble=True)`: all `n` per-point states `(sequence_i, quotient_i)`
advance in lockstep; at iteration `k` one fresh permutation `perms k` is
drawn from the RNG and applied to the current remainder of every point. -/
def vdcLoop (base : ℕ) (perms : ℕ → ℕ → ℕ) : ℕ → ℕ → ℚ → List (ℚ × ℚ) → List (ℚ × ℚ)
  | 0, _, _, sts => sts
  | K + 1, k, b2r, sts =>
      vdcLoop base perms K (k + 1) (b2r / (base : ℚ))
        (sts.map (fun p =>
          (p.1 + ((perms k (Int.toNat ⌊qfmod p.2 (base : ℚ)⌋) : ℕ) : ℚ) * b2r,
            (p.2 - ((perms k (Int.toNat ⌊qfmod p.2 (base : ℚ)⌋) : ℕ) : ℚ)) / (base : ℚ))))

/-- Embeds `van_der_corput(n, base, start_index, scramble=True)`; the float loop
`while (1 − b2r) < 1` runs a fixed finite number `K` of digit iterations
(about 53/log₂ base in double precision), kept here as a parameter. -/
def vanDerCorput (n base K startIndex : ℕ) (perms : ℕ → ℕ → ℕ) : List ℚ :=
  (vdcLoop base perms K 0 (1 / (base : ℚ))
    ((List.range n).map (fun i => ((0 : ℚ), ((startIndex + i : ℕ) : ℚ))))).map Prod.fst

/-- The claim's single-permutation semantics, following the spec's words:
one permutation `perm` of `{0,…,base−1}` applied to every base-`base`
digit of every point, i.e. the permuted radical inverse
`Σ_k perm(digit_k(start+i))·base^−(k−1)` over the first `K` digits. -/
def vdcSpecSingle (n base K startIndex : ℕ) (perm : ℕ → ℕ) : List ℚ :=
  (List.range n).map (fun i =>
    ∑ k in Finset.range K,
      ((perm ((startIndex + i) / base ^ k % base) : ℕ) : ℚ) * (1 / (base : ℚ)) ^ (k + 1))

/-- Claim C3 (amended): the vectorised loop applies, at digit position
`k`, the single permutation `perms k` drawn at that iteration to every one
of the `n` points: the sample equals the pointwise run of the same
per-digit permutation stream on each start index. -/
theorem van_der_corput_shares_permutations (n base K startIndex : ℕ)
    (perms : ℕ → ℕ → ℕ) :
    vanDerCorput n base K startIndex perms
      = (List.range n).map
          (fun i => vdcPoint base perms K 0 0 (1 / (base : ℚ)) ((startIndex + i : ℕ) : ℚ)) := by
  have key : ∀ (K k : ℕ) (b2r : ℚ) (sts : List (ℚ × ℚ)),
      (vdcLoop base perms K k b2r sts).map Prod.fst
        = sts.map (fun p => vdcPoint base perms K k p.1 b2r p.2) := by
    intro K
    induction K with
    | zero => intro k b2r sts; rfl
    | succ K ih =>
        intro k b2r sts
        show (vdcLoop base perms K (k + 1) (b2r / (base : ℚ)) _).map Prod.fst = _
        rw [ih, List.map_map]
        rfl
  unfold vanDerCorput
  rw [key, List.map_map]
  rfl

/-- Claim C3 counterexample: with base 2, two digit iterations, one point
at start index 0, and an RNG whose first permutation is the identity and
whose second is the swap, the code returns `[1/4]`; no single permutation
`{0,1} → {0,1}` (values `a = π(0)`, `b = π(1)`) applied to every digit
reproduces it, since the spec semantics gives `a·(1/2) + a·(1/4)`. -/
theorem van_der_corput_no_single_permutation :
    ¬ ∃ a b : Fin 2,
        vanDerCorput 1 2 2 0 (fun k r => if k = 0 then r else 1 - r)
          = vdcSpecSingle 1 2 2 0 (fun r => if r = 0 then a.val else b.val) := by
  rintro ⟨a, b, hp⟩
  have h0 : vanDerCorput 1 2 2 0 (fun k r => if k = 0 then r else 1 - r)
      = [1/4] := by
    norm_num [vanDerCorput, vdcLoop, qfmod, List.range_succ]
  rw [h0] at hp
  simp only [vdcSpecSingle, List.range_succ, List.range_zero, List.map_cons,
    List.map_nil, List.nil_append, Finset.sum_range_succ, Finset.sum_range_zero,
    List.cons.injEq, and_true] at hp
  norm_num at hp
  have h2 : a.val = 0 ∨ a.val = 1 := by omega
  rcases h2 with h2 | h2 <;> rw [h2] at hp <;> norm_num at hp

/-- State of a `MultivariateNormalQMC` sampler: its own dimension, mean
vector and cursor (from `QMCEngine.__init__`) plus the owned base Sobol
engine. -/
structure MvnState where
  d : ℕ
  mean : ℕ → ℚ
  numGenerated : ℕ
  engine : SobolState

/-- Embeds `MultivariateNormalQMC(mean, …)` with the default scrambled Sobol base
engine of dimension `d` (`inv_transform=True`). -/
def mvnInit (d : ℕ) (mean : ℕ → ℚ) (sv : ℕ → ℕ → ℕ) (shift : ℕ → ℕ) : MvnState :=
  ⟨d, mean, 0, sobolInit d sv shift⟩

/-- Embeds `MultivariateNormalQMC.random(n)` (identity covariance root): draw `n`
points from the base engine, apply the compressed inverse CDF
`ppf(0.5 + (1 − 1e−10)(u − 0.5))` (the external `norm.ppf` kept
abstract), and add the mean.  The wrapper never touches its own
`num_generated`. -/
def mvnRandom (ppf : ℚ → ℚ) (n : ℕ) (s : MvnState) : List (ℕ → ℚ) × MvnState :=
  ((sobolRandom n s.engine).1.map
      (fun row j => ppf (1/2 + (1 - 1/10 ^ 10) * (row j - 1/2)) + s.mean j),
    { s with engine := (sobolRandom n s.engine).2 })

/-- Claim C6 counterexample: a `MultivariateNormalQMC` sampler whose base
engine has drawn 3 points still reports `num_generated = 0`: `random(3)`
does not advance the wrapper's own cursor by 3. -/
theorem mvn_random_cursor_not_advanced :
    (mvnRandom id 3 (mvnInit 1 (fun _ => 0) (fun _ _ => 0) (fun _ => 0))).2.numGenerated
      ≠ (mvnInit 1 (fun _ => 0) (fun _ _ => 0) (fun _ => 0)).numGenerated + 3 := by
  simp [mvnRandom, mvnInit, sobolInit, sobolRandom]

/-- State of an `OptimalDesign` engine as set by `__init__`: dimension,
the `start_design` argument (with its row count), `niter`, and the derived
`best_doe`/`best_disc` fields (`none` standing for `np.inf` when no start
design is given).  The injected `method` callable and the RNG seed are
external handles not compared here. -/
structure OdState where
  d : ℕ
  startDesign : Option ((ℕ → ℕ → ℚ) × ℕ)
  niter : ℕ
  bestDoe : Option ((ℕ → ℕ → ℚ) × ℕ)
  bestDisc : Option ℚ

/-- Embeds `OptimalDesign.__init__(d, start_design, niter, …)`: `best_doe` starts
as `start_design` and `best_disc` as its centered discrepancy (or `np.inf`
= `none`). -/
def odInit (d : ℕ) (startDesign : Option ((ℕ → ℕ → ℚ) × ℕ)) (niter : ℕ) : OdState :=
  ⟨d, startDesign, niter, startDesign,
    startDesign.map (fun p => discrepancyCD p.1 p.2 d false)⟩

/-- Embeds `OptimalDesign.reset()`: `self.__init__(d=self.d, seed=self.rng_seed)` —
`start_design`, `niter` and `method` are not passed and fall back to the
defaults `None`, `1`, `None`. -/
def odReset (s : OdState) : OdState := odInit s.d none 1

/-- Claim C5: evaluated at the failing input `OptimalDesign(d=1,
start_design=[[1/2]], niter=3)`, `reset()` does not restore the
construction state: `niter` falls back to 1 and `best_doe` to `None`,
so the next `random(n)` draws a fresh OA-LHS design instead of returning
the optimized start design. -/
theorem optimal_design_reset_drops_arguments :
    (odReset (odInit 1 (some (fun _ _ => 1/2, 1)) 3)).niter
        ≠ (odInit 1 (some (fun _ _ => 1/2, 1)) 3).niter
      ∧ (odReset (odInit 1 (some (fun _ _ => 1/2, 1)) 3)).bestDoe = none
      ∧ (odInit 1 (some (fun _ _ => 1/2, 1)) 3).bestDoe.isSome = true := by
  refine ⟨?_, rfl, rfl⟩
  simp [odReset, odInit]
